import Mathlib

/-!
# Verification of the otio-hls playlist codec

A shallow embedding of the Go HLS ↔ OTIO adapter (package `hls`):
the line classifier, the byterange codec, the attribute-list parser,
the stateful media-playlist decode engine and the master-playlist
stream-info merging logic, together with theorems settling the
specification claims.

Strings are modelled as `List Char`; Go `int64` values as `Int` with
explicit range conditions where `strconv` bounds matter.
-/

namespace HLS

/-! ## Decimal numbers: rendering and parsing

`natToChars` models Go's `fmt.Sprintf("%d", n)` for non-negative values,
`intToChars` for signed values; `parseNat?` / `parseInt64?` model
`strconv.ParseInt(s, 10, 64)` (used by `strconv.Atoi` as well, since the
platform `int` is 64-bit). -/

/-- The ASCII digit character for a digit value `d < 10`. -/
def digitChar (d : Nat) : Char := Char.ofNat (48 + d)

/-- Decimal rendering of a natural number, most significant digit first. -/
def natToChars (n : Nat) : List Char :=
  if n = 0 then ['0'] else ((Nat.digits 10 n).map digitChar).reverse

/-- Decimal rendering of an integer (Go `%d`). -/
def intToChars (n : Int) : List Char :=
  if n < 0 then '-' :: natToChars n.natAbs else natToChars n.toNat

/-- Parse an unsigned decimal digit string; `none` unless the string is
nonempty and all digits. -/
def parseNat? (cs : List Char) : Option Nat :=
  if cs ≠ [] ∧ cs.all Char.isDigit then
    some (cs.foldl (fun a c => a * 10 + (c.toNat - 48)) 0)
  else none

/-- Model of `strconv.ParseInt(s, 10, 64)`: optional sign, decimal digits,
64-bit signed range check. -/
def parseInt64? (cs : List Char) : Option Int :=
  match cs with
  | '-' :: rest =>
    match parseNat? rest with
    | some n => if (n : Int) ≤ 2 ^ 63 then some (-(n : Int)) else none
    | none => none
  | '+' :: rest =>
    match parseNat? rest with
    | some n => if (n : Int) ≤ 2 ^ 63 - 1 then some (n : Int) else none
    | none => none
  | _ =>
    match parseNat? cs with
    | some n => if (n : Int) ≤ 2 ^ 63 - 1 then some (n : Int) else none
    | none => none

/-! ## Byterange codec -/

/-- Model of Go `strings.Split` on a one-character separator:
`splitOnChar sep "" = [""]`, `splitOnChar '@' "a@b" = ["a", "b"]`. -/
def splitOnChar (sep : Char) : List Char → List (List Char)
  | [] => [[]]
  | c :: rest =>
    if c = sep then [] :: splitOnChar sep rest
    else
      match splitOnChar sep rest with
      | [] => [[c]]
      | p :: ps => (c :: p) :: ps

/-- A byte range for fragmented media (Go struct `Byterange`, `int64` fields). -/
structure Byterange where
  Count : Int
  Offset : Int

deriving DecidableEq

/-- Model of `NewByterangeFromString`: split on `@`; one part gives
`{count, offset 0}`, two parts give `{count, offset}`, anything else or a
failed `strconv.ParseInt` is an error (`none`). -/
def NewByterangeFromString (s : List Char) : Option Byterange :=
  match splitOnChar '@' s with
  | [p0] =>
    match parseInt64? p0 with
    | some count => some ⟨count, 0⟩
    | none => none
  | [p0, p1] =>
    match parseInt64? p0 with
    | some count =>
      match parseInt64? p1 with
      | some offset => some ⟨count, offset⟩
      | none => none
    | none => none
  | _ => none

/-- Model of the Go method `Byterange.String`: `"{count}@{offset}"` when
the offset is positive, else `"{count}"`. -/
def Byterange.render (b : Byterange) : List Char :=
  if 0 < b.Offset then intToChars b.Count ++ '@' :: intToChars b.Offset
  else intToChars b.Count

/-! ## Line classifier -/

/-- ASCII whitespace as recognised by `strings.TrimSpace` (the inputs in
this development are ASCII, so the Unicode cases do not arise). -/
def isAsciiSpace (c : Char) : Bool := c.toNat = 32 || (9 ≤ c.toNat && c.toNat ≤ 13)

/-- Model of `strings.TrimSpace` on ASCII text. -/
def trimAscii (l : List Char) : List Char :=
  ((l.dropWhile isAsciiSpace).reverse.dropWhile isAsciiSpace).reverse

/-- The kind of a playlist line (Go `EntryType`). -/
inductive EntryType where
  | comment
  | tag
  | uri

deriving DecidableEq

/-- One classified playlist line (Go struct `PlaylistEntry`). -/
structure PlaylistEntry where
  type : EntryType
  tag : List Char := []
  value : List Char := []
  uri : List Char := []

deriving DecidableEq

/-- Model of `ParsePlaylistEntry`: trim the line; blank gives no entry;
`#EXT…` (tag regex `^#(EXT[^:]*):?(.*)$`) gives a tag whose name runs to
the first colon and whose value is the remainder; any other `#…` line is
a comment; everything else is a URI line kept verbatim. -/
def ParsePlaylistEntry (line : List Char) : Option PlaylistEntry :=
  match trimAscii line with
  | [] => none
  | '#' :: 'E' :: 'X' :: 'T' :: rest =>
    some { type := .tag,
           tag := 'E' :: 'X' :: 'T' :: rest.takeWhile (fun c => c ≠ ':'),
           value := (rest.dropWhile (fun c => c ≠ ':')).drop 1 }
  | '#' :: rest => some { type := .comment, value := rest }
  | l => some { type := .uri, uri := l }

/-- Model of the Go method `PlaylistEntry.IsTag`. -/
def PlaylistEntry.IsTag (e : PlaylistEntry) (name : List Char) : Bool :=
  e.type == .tag && e.tag == name

/-- The classified non-blank lines of an input text: scanner line
splitting (`bufio.ScanLines`) followed by `ParsePlaylistEntry`; blank
lines yield no entry. -/
def classifyLines (input : List Char) : List PlaylistEntry :=
  (splitOnChar '\n' input).filterMap ParsePlaylistEntry

/-! ## Attribute-list parser -/

/-- Association-list put with Go-map overwrite semantics. -/
def putAssoc {α : Type} (a : List (List Char × α)) (k : List Char) (v : α) :
    List (List Char × α) :=
  if a.any (fun p => p.1 == k) then a.map (fun p => if p.1 == k then (k, v) else p)
  else a ++ [(k, v)]

/-- Association-list lookup. -/
def getAssoc? {α : Type} (a : List (List Char × α)) (k : List Char) : Option α :=
  (a.find? (fun p => p.1 == k)).map Prod.snd

/-- Go `AttributeList`, modelled as an association list (map iteration
order never reaches a claim, only key lookups do). -/
def AttributeList : Type := List (List Char × List Char)

/-- Model of `AttributeList.Get`: a missing key reads as the empty string,
as with a Go map of strings. -/
def attrGet (a : AttributeList) (k : List Char) : List Char :=
  (getAssoc? a k).getD []

/-- Model of `AttributeList.GetInt` (`strconv.Atoi`; the platform `int`
is 64-bit): absent key or malformed number is an error. -/
def attrGetInt (a : AttributeList) (k : List Char) : Except Unit Int :=
  let v := attrGet a k
  if v = [] then .error ()
  else match parseInt64? v with
    | some n => .ok n
    | none => .error ()

/-- `\w` of Go's regexp (ASCII word character). -/
def wordChar (c : Char) : Bool := c.isAlphanum || c = '_'

/-- `[0-9A-Fa-f]`. -/
def hexDigit (c : Char) : Bool :=
  c.isDigit || ('a' ≤ c && c ≤ 'f') || ('A' ≤ c && c ≤ 'F')

/-- `[A-Z0-9-]` (bare enum token characters). -/
def enumChar (c : Char) : Bool :=
  ('A' ≤ c && c ≤ 'Z') || c.isDigit || c = '-'

/-- The maximal `\w+` run at the head of the string, or `none` if empty. -/
def matchKey (l : List Char) : Option (List Char × List Char) :=
  match l.takeWhile wordChar with
  | [] => none
  | k => some (k, l.dropWhile wordChar)

/-- Anchored match of `(\w+)="([^"]*)"`. -/
def matchQuoted (l : List Char) : Option (List Char × List Char × List Char) :=
  match matchKey l with
  | some (k, '=' :: '"' :: r2) =>
    match r2.dropWhile (fun c => c ≠ '"') with
    | '"' :: rest => some (k, r2.takeWhile (fun c => c ≠ '"'), rest)
    | _ => none
  | _ => none

/-- Anchored match of `(\w+)=(\d+x\d+)`. -/
def matchResolution (l : List Char) : Option (List Char × List Char × List Char) :=
  match matchKey l with
  | some (k, '=' :: r2) =>
    match r2.takeWhile Char.isDigit with
    | [] => none
    | d1 =>
      match r2.dropWhile Char.isDigit with
      | 'x' :: r3 =>
        match r3.takeWhile Char.isDigit with
        | [] => none
        | d2 => some (k, d1 ++ 'x' :: d2, r3.dropWhile Char.isDigit)
      | _ => none
  | _ => none

/-- Anchored match of `(\w+)=(0x[0-9A-Fa-f]+)`. -/
def matchHex (l : List Char) : Option (List Char × List Char × List Char) :=
  match matchKey l with
  | some (k, '=' :: '0' :: 'x' :: r3) =>
    match r3.takeWhile hexDigit with
    | [] => none
    | h => some (k, '0' :: 'x' :: h, r3.dropWhile hexDigit)
  | _ => none

/-- Anchored match of `(\w+)=(\d+(?:\.\d+)?)`. -/
def matchFloat (l : List Char) : Option (List Char × List Char × List Char) :=
  match matchKey l with
  | some (k, '=' :: r2) =>
    match r2.takeWhile Char.isDigit with
    | [] => none
    | d1 =>
      match r2.dropWhile Char.isDigit with
      | '.' :: r3 =>
        match r3.takeWhile Char.isDigit with
        | [] => some (k, d1, r2.dropWhile Char.isDigit)
        | d2 => some (k, d1 ++ '.' :: d2, r3.dropWhile Char.isDigit)
      | r3 => some (k, d1, r3)
  | _ => none

/-- Anchored match of `(\w+)=([A-Z0-9-]+)`. -/
def matchEnum (l : List Char) : Option (List Char × List Char × List Char) :=
  match matchKey l with
  | some (k, '=' :: r2) =>
    match r2.takeWhile enumChar with
    | [] => none
    | v => some (k, v, r2.dropWhile enumChar)
  | _ => none

/-- Drop one leading comma (`strings.TrimPrefix(s, ",")`). -/
def dropComma : List Char → List Char
  | ',' :: t => t
  | l => l

/-- One pass of the `ParseAttributeList` loop, fuelled (every iteration
consumes at least one character, so `length + 1` fuel suffices). -/
def parseAttrAux : Nat → List Char → AttributeList → AttributeList
  | 0, _, acc => acc
  | fuel + 1, s, acc =>
    let r := trimAscii s
    if r = [] then acc
    else
      match matchQuoted r with
      | some (k, v, rest) => parseAttrAux fuel (dropComma rest) (putAssoc acc k v)
      | none =>
      match matchResolution r with
      | some (k, v, rest) => parseAttrAux fuel (dropComma rest) (putAssoc acc k v)
      | none =>
      match matchHex r with
      | some (k, v, rest) => parseAttrAux fuel (dropComma rest) (putAssoc acc k v)
      | none =>
      match matchFloat r with
      | some (k, v, rest) => parseAttrAux fuel (dropComma rest) (putAssoc acc k v)
      | none =>
      match matchEnum r with
      | some (k, v, rest) => parseAttrAux fuel (dropComma rest) (putAssoc acc k v)
      | none =>
        match r.findIdx? (fun c => c = ',') with
        | some idx => if idx > 0 then parseAttrAux fuel (r.drop (idx + 1)) acc else acc
        | none => acc

/-- Model of `ParseAttributeList`: repeatedly trim, try the five value
shapes in priority order (quoted, resolution, hex, numeric, bare enum),
record the first anchored match and advance past it and one comma;
otherwise skip to past the next comma, or stop. -/
def ParseAttributeList (s : List Char) : AttributeList :=
  parseAttrAux (s.length + 1) s []

/-! ## Decode engine -/

/-- A metadata value stored by the decoder on the track (`int` or
`string` in the Go map). -/
inductive MetaVal where
  | int (n : Int)
  | str (s : List Char)

deriving DecidableEq

/-- `strconv.Atoi` with the error ignored, as the decoder does for
`VERSION`/`TARGETDURATION`/`MEDIA-SEQUENCE` (a failed parse leaves 0;
strconv's clamping of out-of-range literals is not modelled). -/
def atoiOr0 (cs : List Char) : Int := (parseInt64? cs).getD 0

/-- Exact-rational model of `strconv.ParseFloat` on plain decimal
literals (`digits` or `digits.digits`, optional sign); anything else —
including exponent forms, which no claim exercises — parses as 0, the
value the decoder keeps when it ignores the parse error. -/
def parseUDecQ (cs : List Char) : ℚ :=
  match splitOnChar '.' cs with
  | [a] => ((parseNat? a).getD 0 : ℚ)
  | [a, b] =>
    match parseNat? a, parseNat? b with
    | some n, some f => (n : ℚ) + (f : ℚ) / (10 : ℚ) ^ b.length
    | _, _ => 0
  | _ => 0

def parseDecimalQ (cs : List Char) : ℚ :=
  match cs with
  | '-' :: r => -(parseUDecQ r)
  | '+' :: r => parseUDecQ r
  | _ => parseUDecQ cs

/-- Model of `strings.SplitN(l, sep, 2)`. -/
def splitN2 (sep : Char) (l : List Char) : List (List Char) :=
  match l.dropWhile (fun c => c ≠ sep) with
  | _ :: t => [l.takeWhile (fun c => c ≠ sep), t]
  | [] => [l.takeWhile (fun c => c ≠ sep)]

/-- The decoder's rolling state (the local variables of
`decodeMediaPlaylist`). -/
structure DecodeState where
  currentDuration : ℚ := 0
  currentTitle : List Char := []
  currentByterange : Option Byterange := none
  currentKey : List Char := []
  currentProgramDateTime : List Char := []
  mapURI : List Char := []
  mapByterange : Option Byterange := none
  lastByterangeEnd : Int := 0
  discontinuityCount : Nat := 0
  hlsMeta : List (List Char × MetaVal) := []

deriving DecidableEq

/-- A decoded segment: exactly the arguments `decodeMediaPlaylist`
passes to `createClip` for one URI line. -/
structure Segment where
  uri : List Char
  duration : ℚ
  title : List Char
  byterange : Option Byterange
  mapURI : List Char
  mapByterange : Option Byterange
  key : List Char
  programDateTime : List Char
  discontinuitySeq : Nat

deriving DecidableEq

/-- `createClip`'s clip name: the title, falling back to the URI. -/
def Segment.clipName (s : Segment) : List Char :=
  if s.title = [] then s.uri else s.title

/-- `createClip` stores `discontinuity_sequence` in the clip's HLS
metadata only when it is positive. -/
def Segment.clipDiscMeta (s : Segment) : Option Nat :=
  if s.discontinuitySeq > 0 then some s.discontinuitySeq else none

/-- `createClip` stores `EXT-X-KEY` only when a key string is present. -/
def Segment.clipKeyMeta (s : Segment) : Option (List Char) :=
  if s.key = [] then none else some s.key

/-- `createClip` stores `EXT-X-PROGRAM-DATE-TIME` only when present. -/
def Segment.clipPdtMeta (s : Segment) : Option (List Char) :=
  if s.programDateTime = [] then none else some s.programDateTime

/-- The case selected by the decoder's `switch` for one entry, with the
guards tested in the source's order. -/
inductive EntryCase where
  | version
  | targetduration
  | mediasequence
  | playlisttype
  | mapTag
  | extinf
  | byterange
  | keyTag
  | pdt
  | disc
  | uriLine
  | other

deriving DecidableEq

/-- The guard chain of the decoder's `switch`, in source order. -/
def classifyEntry (e : PlaylistEntry) : EntryCase :=
  if e.IsTag "EXT-X-VERSION".data then .version
  else if e.IsTag "EXT-X-TARGETDURATION".data then .targetduration
  else if e.IsTag "EXT-X-MEDIA-SEQUENCE".data then .mediasequence
  else if e.IsTag "EXT-X-PLAYLIST-TYPE".data then .playlisttype
  else if e.IsTag "EXT-X-MAP".data then .mapTag
  else if e.IsTag "EXTINF".data then .extinf
  else if e.IsTag "EXT-X-BYTERANGE".data then .byterange
  else if e.IsTag "EXT-X-KEY".data then .keyTag
  else if e.IsTag "EXT-X-PROGRAM-DATE-TIME".data then .pdt
  else if e.IsTag "EXT-X-DISCONTINUITY".data then .disc
  else if e.type = .uri then .uriLine
  else .other

/-- The contiguous-range inference on a parsed `EXT-X-BYTERANGE` value:
an omitted/zero offset continues from `lastByterangeEnd` when positive. -/
def byterangeInferred (st : DecodeState) (br : Byterange) : Byterange :=
  if br.Offset = 0 ∧ st.lastByterangeEnd > 0
  then { br with Offset := st.lastByterangeEnd } else br

/-- The segment emitted for a URI entry from state `st`: exactly the
arguments passed to `createClip`. -/
def emittedSegment (st : DecodeState) (u : List Char) : Segment :=
  { uri := u, duration := st.currentDuration, title := st.currentTitle,
    byterange := st.currentByterange, mapURI := st.mapURI,
    mapByterange := st.mapByterange, key := st.currentKey,
    programDateTime := st.currentProgramDateTime,
    discontinuitySeq := st.discontinuityCount }

/-- The state after emitting a segment: `lastByterangeEnd` advanced when
a byterange was staged, and the per-segment fields reset. -/
def postEmitState (st : DecodeState) : DecodeState :=
  { st with
    lastByterangeEnd :=
      match st.currentByterange with
      | some br => br.Offset + br.Count
      | none => st.lastByterangeEnd,
    currentDuration := 0, currentTitle := [],
    currentByterange := none, currentProgramDateTime := [] }

/-- One iteration of the decoder's `switch` over a classified entry:
possibly emits a segment (on a URI line) and updates the state. -/
def stepEntry (st : DecodeState) (e : PlaylistEntry) : Option Segment × DecodeState :=
  match classifyEntry e with
  | .version =>
    (none, { st with hlsMeta := putAssoc st.hlsMeta "version".data (.int (atoiOr0 (trimAscii e.value))) })
  | .targetduration =>
    (none, { st with hlsMeta := putAssoc st.hlsMeta "target_duration".data (.int (atoiOr0 (trimAscii e.value))) })
  | .mediasequence =>
    (none, { st with hlsMeta := putAssoc st.hlsMeta "media_sequence".data (.int (atoiOr0 (trimAscii e.value))) })
  | .playlisttype =>
    (none, { st with hlsMeta := putAssoc st.hlsMeta "playlist_type".data (.str (trimAscii e.value)) })
  | .mapTag =>
    let attrs := ParseAttributeList e.value
    let brs := attrGet attrs "BYTERANGE".data
    (none, { st with
      mapURI := attrGet attrs "URI".data,
      mapByterange := if brs ≠ [] then NewByterangeFromString brs else st.mapByterange })
  | .extinf =>
    match splitN2 ',' e.value with
    | [p0] => (none, { st with currentDuration := parseDecimalQ (trimAscii p0) })
    | p0 :: p1 :: _ =>
      (none, { st with
        currentDuration := parseDecimalQ (trimAscii p0),
        currentTitle := trimAscii p1 })
    | [] => (none, st)
  | .byterange =>
    match NewByterangeFromString (trimAscii e.value) with
    | some br => (none, { st with currentByterange := some (byterangeInferred st br) })
    | none => (none, st)
  | .keyTag =>
    (none, { st with currentKey := e.value })
  | .pdt =>
    (none, { st with currentProgramDateTime := trimAscii e.value })
  | .disc =>
    (none, { st with discontinuityCount := st.discontinuityCount + 1 })
  | .uriLine => (some (emittedSegment st e.uri), postEmitState st)
  | .other => (none, st)

/-- Fold `stepEntry` over the entry list, collecting emitted segments. -/
def runEntries (st : DecodeState) : List PlaylistEntry → List Segment × DecodeState
  | [] => ([], st)
  | e :: rest =>
    let r := stepEntry st e
    let rs := runEntries r.2 rest
    (r.1.toList ++ rs.1, rs.2)

inductive TrackKind where
  | video
  | audio

deriving DecidableEq

structure Track where
  name : List Char
  kind : TrackKind
  segments : List Segment
  hlsMeta : List (List Char × MetaVal) := []

deriving DecidableEq

structure Timeline where
  name : List Char
  tracks : List Track

deriving DecidableEq

/-- The decode error kinds: `"not a valid M3U8 playlist"` and
`"unsupported playlist type (master playlists not yet implemented)"`. -/
inductive DecodeError where
  | invalidPlaylist
  | unsupported

deriving DecidableEq

/-- Model of `Decoder.parsePlaylist`: classify the lines, then fail with
the invalid-playlist error when no entries remain or the first is not the
`EXTM3U` tag. -/
def parsePlaylist (input : List Char) : Except DecodeError (List PlaylistEntry) :=
  match classifyLines input with
  | [] => .error .invalidPlaylist
  | e :: rest =>
    if e.IsTag "EXTM3U".data then .ok (e :: rest) else .error .invalidPlaylist

/-- Model of `Decoder.isMediaPlaylist`: the first of `EXTINF` /
`EXT-X-STREAM-INF` to appear decides; neither means not a media playlist. -/
def isMediaPlaylist : List PlaylistEntry → Bool
  | [] => false
  | e :: rest =>
    if e.IsTag "EXTINF".data then true
    else if e.IsTag "EXT-X-STREAM-INF".data then false
    else isMediaPlaylist rest

/-- Model of `Decoder.decodeMediaPlaylist`: one unnamed video track whose
children are the decoded segments, inside a timeline named
`"HLS Playlist"`. -/
def decodeMediaPlaylist (entries : List PlaylistEntry) : Timeline :=
  let r := runEntries {} entries
  { name := "HLS Playlist".data,
    tracks := [{ name := [], kind := .video, segments := r.1, hlsMeta := r.2.hlsMeta }] }

/-- The branch of `Decoder.Decode` after validation. -/
def decodeFromEntries (entries : List PlaylistEntry) : Except DecodeError Timeline :=
  if isMediaPlaylist entries then .ok (decodeMediaPlaylist entries)
  else .error .unsupported

/-- Model of `Decoder.Decode`. -/
def Decode (input : List Char) : Except DecodeError Timeline :=
  match parsePlaylist input with
  | .error e => .error e
  | .ok entries => decodeFromEntries entries

/-! ## Master-playlist encoding: stream-info attributes

Models the part of `encodeMasterPlaylist` that builds the attribute list
of a video track's `EXT-X-STREAM-INF` line, including the linked-audio
merge. Go's `interface{}` metadata values are modelled by `GoValue`
(float values, which no claim needs, are not representable). -/

inductive GoValue where
  | int (n : Int)
  | str (s : List Char)
  | bool (b : Bool)
  | list (l : List GoValue)
  | map (m : List (List Char × GoValue))

/-- `fmt.Sprintf("%v", v)` for the value shapes of `GoValue` (the
composite renderings are placeholders Go would print differently; no
claim reaches them). -/
def sprintfV : GoValue → List Char
  | .int n => intToChars n
  | .str s => s
  | .bool b => if b then "true".data else "false".data
  | .list _ => "[]".data
  | .map _ => "map[]".data

/-- A timeline track as the encoder sees it: name, kind, and the
top-level metadata dictionary. -/
structure EncTrack where
  name : List Char
  kind : TrackKind
  meta : List (List Char × GoValue)

/-- `Encoder.getStreamingMetadata`: the `"streaming"` namespace of the
track metadata, or empty. -/
def getStreamingMetadata (t : EncTrack) : List (List Char × GoValue) :=
  match getAssoc? t.meta "streaming".data with
  | some (.map m) => m
  | _ => []

/-- `Encoder.getStringOrDefault`. -/
def getStringOrDefault (m : List (List Char × GoValue)) (k d : List Char) : List Char :=
  match getAssoc? m k with
  | some (.str s) => s
  | _ => d

/-- `Encoder.getIntOrDefault` (the `float64` alternative is outside the
modelled value shapes). -/
def getIntOrDefault (m : List (List Char × GoValue)) (k : List Char) (d : Int) : Int :=
  match getAssoc? m k with
  | some (.int n) => n
  | _ => d

/-- `BANDWIDTH` is written for any present value (`%v`). -/
def putBandwidth (md : List (List Char × GoValue)) (a : AttributeList) : AttributeList :=
  match getAssoc? md "bandwidth".data with
  | some v => putAssoc a "BANDWIDTH".data (sprintfV v)
  | none => a

/-- `CODECS` is written only for a string codec value. -/
def putCodec (md : List (List Char × GoValue)) (a : AttributeList) : AttributeList :=
  match getAssoc? md "codec".data with
  | some (.str c) => putAssoc a "CODECS".data c
  | _ => a

/-- `FRAME-RATE` is written for any present value (`%v`). -/
def putFrameRate (md : List (List Char × GoValue)) (a : AttributeList) : AttributeList :=
  match getAssoc? md "frame_rate".data with
  | some v => putAssoc a "FRAME-RATE".data (sprintfV v)
  | none => a

/-- `RESOLUTION` is written only when both width and height are present. -/
def putResolution (md : List (List Char × GoValue)) (a : AttributeList) : AttributeList :=
  match getAssoc? md "width".data, getAssoc? md "height".data with
  | some w, some h => putAssoc a "RESOLUTION".data (sprintfV w ++ 'x' :: sprintfV h)
  | _, _ => a

/-- `Encoder.buildStreamInfAttributes`: the four conditional writes in
source order. -/
def buildStreamInfAttributes (md : List (List Char × GoValue)) : AttributeList :=
  putResolution md (putFrameRate md (putCodec md (putBandwidth md [])))

/-- The double loop of `encodeMasterPlaylist` over audio tracks and
linked names: the first audio track whose name occurs (as a string) in
`linked_tracks` wins. -/
def findLinkedAudio (lts : List GoValue) (audioTracks : List EncTrack) : Option EncTrack :=
  audioTracks.find? (fun a =>
    lts.any (fun ln => match ln with | .str s => s == a.name | _ => false))

/-- Append a non-empty audio codec to an existing `CODECS` value. -/
def mergeCodec (attrs : AttributeList) (audioCodec : List Char) : AttributeList :=
  if audioCodec ≠ [] then
    match getAssoc? attrs "CODECS".data with
    | some c => putAssoc attrs "CODECS".data (c ++ ',' :: audioCodec)
    | none => attrs
  else attrs

/-- Add a positive audio bandwidth into a parseable `BANDWIDTH` value. -/
def mergeBandwidth (attrs : AttributeList) (audioBandwidth : Int) : AttributeList :=
  if audioBandwidth > 0 then
    match attrGetInt attrs "BANDWIDTH".data with
    | .ok bw => putAssoc attrs "BANDWIDTH".data (intToChars (bw + audioBandwidth))
    | .error _ => attrs
  else attrs

/-- The linked-audio merge of `encodeMasterPlaylist`: append the audio
codec to `CODECS` (when both exist), set `AUDIO` to the group id, and add
the audio bandwidth into `BANDWIDTH` (when positive and parseable), in
source order. -/
def mergeLinkedAudio (attrs : AttributeList) (a : EncTrack) : AttributeList :=
  mergeBandwidth
    (putAssoc
      (mergeCodec attrs (getStringOrDefault (getStreamingMetadata a) "codec".data []))
      "AUDIO".data
      (getStringOrDefault (getStreamingMetadata a) "group_id".data "audio1".data))
    (getIntOrDefault (getStreamingMetadata a) "bandwidth".data 0)

/-- The attribute list of the `EXT-X-STREAM-INF` line emitted for one
video track, given the audio tracks of the timeline. -/
def streamInfAttrsFor (video : EncTrack) (audioTracks : List EncTrack) : AttributeList :=
  match getAssoc? video.meta "linked_tracks".data with
  | some (.list lts) =>
    match findLinkedAudio lts audioTracks with
    | some a => mergeLinkedAudio (buildStreamInfAttributes (getStreamingMetadata video)) a
    | none => buildStreamInfAttributes (getStreamingMetadata video)
  | _ => buildStreamInfAttributes (getStreamingMetadata video)

/-! ## Positions and counts for the discontinuity invariant -/

/-- The indices of the URI entries of a playlist, in order. -/
def uriPositions : List PlaylistEntry → List Nat
  | [] => []
  | e :: rest =>
    if e.type = .uri then 0 :: (uriPositions rest).map (· + 1)
    else (uriPositions rest).map (· + 1)

/-- The number of `EXT-X-DISCONTINUITY` tags among the first `i` entries. -/
def discBefore (es : List PlaylistEntry) (i : Nat) : Nat :=
  (es.take i).countP (fun e => e.IsTag "EXT-X-DISCONTINUITY".data)

/-! ## Playlist shape and association-list lemmas -/

/-- Spec-side playlist-shape condition: no `EXTINF` tag precedes the
first `EXT-X-STREAM-INF` tag — the first of the two tags to appear is
`STREAM-INF`, or neither appears at all. -/
def masterShaped (es : List PlaylistEntry) : Bool :=
  match es.find? (fun e => e.IsTag "EXTINF".data || e.IsTag "EXT-X-STREAM-INF".data) with
  | some e => e.IsTag "EXT-X-STREAM-INF".data
  | none => true

/-! ## Concrete inputs used by the witnesses -/

/-- The invalid input of `TestInvalidPlaylist`. -/
def invalidInput : List Char := "This is not a valid playlist".data

/-- A master playlist (variant list), which decode does not support. -/
def masterInput : List Char :=
  "#EXTM3U\n#EXT-X-STREAM-INF:BANDWIDTH=1280000,RESOLUTION=1920x1080\nlow/index.m3u8\n".data

/-- The media playlist of `TestDecodeSimplePlaylist`. -/
def simpleMediaInput : List Char :=
  ("#EXTM3U\n#EXT-X-VERSION:3\n#EXT-X-TARGETDURATION:10\n#EXTINF:9.9,\nsegment1.ts\n"
    ++ "#EXTINF:9.9,\nsegment2.ts\n#EXTINF:9.9,\nsegment3.ts\n#EXT-X-ENDLIST\n").data

/-- The classified `#EXTM3U` header line. -/
def extm3uEntry : PlaylistEntry := { type := .tag, tag := "EXTM3U".data, value := [] }

/-- The encryption-key playlist of `TestDecodeWithKey`. -/
def keyInput : List Char :=
  ("#EXTM3U\n#EXT-X-VERSION:3\n#EXT-X-TARGETDURATION:10\n"
    ++ "#EXT-X-KEY:METHOD=AES-128,URI=\"https://example.com/key.bin\","
    ++ "IV=0x12345678901234567890123456789012\n"
    ++ "#EXTINF:9.9,\nsegment1.ts\n#EXTINF:9.9,\nsegment2.ts\n#EXT-X-ENDLIST\n").data

/-- The raw `EXT-X-KEY` value of `keyInput`. -/
def keyVal : List Char :=
  ("METHOD=AES-128,URI=\"https://example.com/key.bin\","
    ++ "IV=0x12345678901234567890123456789012").data

/-- The program-date-time playlist of `TestDecodeWithProgramDateTime`. -/
def pdtInput : List Char :=
  ("#EXTM3U\n#EXT-X-VERSION:3\n#EXT-X-TARGETDURATION:10\n#EXTINF:9.9,\n"
    ++ "#EXT-X-PROGRAM-DATE-TIME:2023-01-01T00:00:00.000Z\nsegment1.ts\n"
    ++ "#EXTINF:9.9,\nsegment2.ts\n#EXT-X-ENDLIST\n").data

/-- A fully-populated decode state for the C5 witness. -/
def c5State : DecodeState :=
  { currentDuration := 5, currentTitle := "t".data,
    currentByterange := some ⟨10, 2⟩, currentKey := "k".data,
    currentProgramDateTime := "p".data, mapURI := "m".data,
    mapByterange := some ⟨1, 0⟩, lastByterangeEnd := 3,
    discontinuityCount := 2, hlsMeta := [] }

def c5Entry : PlaylistEntry := { type := .uri, uri := "s.ts".data }

/-- A decode state with a staged byterange, for the C7 witness. -/
def c7State : DecodeState := { currentByterange := some ⟨534220, 652⟩ }

def c7Uri1 : PlaylistEntry := { type := .uri, uri := "seg1.m4s".data }

def c7Tag : PlaylistEntry :=
  { type := .tag, tag := "EXT-X-BYTERANGE".data, value := "535192".data }

def c7Uri2 : PlaylistEntry := { type := .uri, uri := "seg2.m4s".data }

deriving instance DecidableEq for Except

/-- Comma-join of attribute strings (how the four attributes of C8 are
assembled into one attribute-list line). -/
def joinComma (ps : List (List Char)) : List Char := (ps.intersperse ",".data).flatten

/-- All ways to insert an element into a list. -/
def insertAll {α : Type} (x : α) : List α → List (List α)
  | [] => [[x]]
  | y :: ys => (x :: y :: ys) :: (insertAll x ys).map (y :: ·)

/-- All permutations of a list (structural, so it evaluates). -/
def permsOf {α : Type} : List α → List (List α)
  | [] => [[]]
  | x :: xs => (permsOf xs).flatMap (insertAll x)

/-- The four attributes of `TestParseAttributeList`. -/
def c8Attrs : List (List Char) :=
  ["URI=\"init.mp4\"".data, "BYTERANGE=\"652@0\"".data,
   "BANDWIDTH=1280000".data, "RESOLUTION=1920x1080".data]

/-- The video track of `TestEncodeMasterPlaylist`, with `linked_tracks`
naming both audio tracks below. -/
def c4Video : EncTrack :=
  { name := "v1".data, kind := .video,
    meta := [("streaming".data, .map
        [("bandwidth".data, .int 123456), ("codec".data, .str "avc1.4d401f".data),
         ("width".data, .int 1920), ("height".data, .int 1080)]),
      ("linked_tracks".data, .list [.str "a1".data, .str "a2".data])] }

/-- The audio track of `TestEncodeMasterPlaylist`. -/
def c4Audio1 : EncTrack :=
  { name := "a1".data, kind := .audio,
    meta := [("streaming".data, .map
        [("bandwidth".data, .int 12345), ("codec".data, .str "mp4a.40.2".data),
         ("group_id".data, .str "audio1".data)])] }

/-- A second matching audio track, ignored because `a1` matches first. -/
def c4Audio2 : EncTrack :=
  { name := "a2".data, kind := .audio,
    meta := [("streaming".data, .map
        [("bandwidth".data, .int 99999), ("codec".data, .str "ec-3".data),
         ("group_id".data, .str "audio9".data)])] }

lemma digitChar_isDigit {d : Nat} (h : d < 10) : (digitChar d).isDigit = true := by
  interval_cases d <;> decide

lemma digitChar_toNat {d : Nat} (h : d < 10) : (digitChar d).toNat - 48 = d := by
  interval_cases d <;> decide

lemma digitChar_ne_minus {d : Nat} (h : d < 10) : digitChar d ≠ '-' := by
  interval_cases d <;> decide

lemma digitChar_ne_plus {d : Nat} (h : d < 10) : digitChar d ≠ '+' := by
  interval_cases d <;> decide

lemma digitChar_ne_at {d : Nat} (h : d < 10) : digitChar d ≠ '@' := by
  interval_cases d <;> decide

lemma natToChars_all_digits (n : Nat) : (natToChars n).all Char.isDigit = true := by
  unfold natToChars
  split
  · decide
  · rw [List.all_eq_true]
    intro c hc
    rw [List.mem_reverse, List.mem_map] at hc
    obtain ⟨d, hd, rfl⟩ := hc
    exact digitChar_isDigit (Nat.digits_lt_base (by norm_num) hd)

lemma natToChars_ne_nil (n : Nat) : natToChars n ≠ [] := by
  unfold natToChars
  split
  · simp
  · simp [Nat.digits_ne_nil_iff_ne_zero, *]

lemma foldr_digits (l : List Nat) (h : ∀ d ∈ l, d < 10) :
    (l.map digitChar).foldr (fun c a => a * 10 + (c.toNat - 48)) 0 = Nat.ofDigits 10 l := by
  induction l with
  | nil => simp [Nat.ofDigits]
  | cons d l ih =>
    have hd : d < 10 := h d (List.mem_cons_self d l)
    simp only [List.map_cons, List.foldr_cons, ih (fun x hx => h x (List.mem_cons_of_mem d hx)),
      Nat.ofDigits_cons, digitChar_toNat hd]
    ring

lemma parseNat_natToChars (n : Nat) : parseNat? (natToChars n) = some n := by
  unfold parseNat?
  rw [if_pos ⟨natToChars_ne_nil n, natToChars_all_digits n⟩]
  congr 1
  unfold natToChars
  split
  · simpa using (by rename_i h; omega : n = 0).symm
  · rw [List.foldl_reverse]
    have := foldr_digits (Nat.digits 10 n)
      (fun d hd => Nat.digits_lt_base (by norm_num) hd)
    simpa [this] using (Nat.ofDigits_digits 10 n)

lemma natToChars_head_digit (n : Nat) :
    ∀ c ∈ natToChars n, c.isDigit = true := by
  intro c hc
  have := natToChars_all_digits n
  rw [List.all_eq_true] at this
  exact this c hc

/-- Round-trip of `parseInt64?` after `intToChars` on the `int64` range. -/
lemma parseInt64_intToChars (n : Int) (hlo : -(2 ^ 63) ≤ n) (hhi : n ≤ 2 ^ 63 - 1) :
    parseInt64? (intToChars n) = some n := by
  unfold intToChars
  split
  · rename_i hneg
    unfold parseInt64?
    simp only [parseNat_natToChars]
    rw [if_pos (by omega)]
    congr 1
    omega
  · rename_i hpos
    rcases hcs : natToChars n.toNat with _ | ⟨c, rest⟩
    · exact absurd hcs (natToChars_ne_nil _)
    · have hdig : c.isDigit = true :=
        natToChars_head_digit n.toNat c (hcs ▸ List.mem_cons_self c rest)
      have h1 : c ≠ '-' := by
        intro hh; rw [hh] at hdig; exact absurd hdig (by decide)
      have h2 : c ≠ '+' := by
        intro hh; rw [hh] at hdig; exact absurd hdig (by decide)
      have hrw : parseInt64? (c :: rest) =
          match parseNat? (c :: rest) with
          | some m => if (m : Int) ≤ 2 ^ 63 - 1 then some (m : Int) else none
          | none => none := by
        unfold parseInt64?
        split
        · rename_i heq
          simp only [List.cons.injEq] at heq
          exact absurd heq.1 h1
        · rename_i heq
          simp only [List.cons.injEq] at heq
          exact absurd heq.1 h2
        · rfl
      rw [hrw, ← hcs, parseNat_natToChars]
      have htn : ((n.toNat : Int)) = n := by omega
      simp only
      rw [if_pos (by omega), htn]

lemma splitOnChar_no_sep {sep : Char} {l : List Char} (h : sep ∉ l) :
    splitOnChar sep l = [l] := by
  induction l with
  | nil => rfl
  | cons c rest ih =>
    have hc : c ≠ sep := fun hh => h (hh ▸ List.mem_cons_self c rest)
    have hr : sep ∉ rest := fun hh => h (List.mem_cons_of_mem c hh)
    unfold splitOnChar
    rw [if_neg hc, ih hr]

lemma splitOnChar_sep_mid {sep : Char} {a b : List Char} (h : sep ∉ a) :
    splitOnChar sep (a ++ sep :: b) = a :: splitOnChar sep b := by
  induction a with
  | nil => simp [splitOnChar]
  | cons c rest ih =>
    have hc : c ≠ sep := fun hh => h (hh ▸ List.mem_cons_self c rest)
    have hr : sep ∉ rest := fun hh => h (List.mem_cons_of_mem c hh)
    simp only [List.cons_append]
    conv_lhs => unfold splitOnChar
    rw [if_neg hc, ih hr]

lemma mem_of_mem_splitOnChar {sep : Char} {l p : List Char} {c : Char}
    (hp : p ∈ splitOnChar sep l) (hc : c ∈ p) : c ∈ l := by
  induction l generalizing p with
  | nil =>
    simp [splitOnChar] at hp
    subst hp
    exact absurd hc (List.not_mem_nil c)
  | cons d rest ih =>
    unfold splitOnChar at hp
    by_cases hd : d = sep
    · rw [if_pos hd] at hp
      rcases List.mem_cons.mp hp with h | h
      · subst h; exact absurd hc (List.not_mem_nil c)
      · exact List.mem_cons_of_mem d (ih h hc)
    · rw [if_neg hd] at hp
      rcases hsp : splitOnChar sep rest with _ | ⟨q, qs⟩
      · rw [hsp] at hp
        simp only [List.mem_singleton] at hp
        subst hp
        simp only [List.mem_singleton] at hc
        rw [hc]
        exact List.mem_cons_self d rest
      · rw [hsp] at hp
        rcases List.mem_cons.mp hp with h | h
        · subst h
          rcases List.mem_cons.mp hc with h | h
          · rw [h]; exact List.mem_cons_self d rest
          · exact List.mem_cons_of_mem d (ih (hsp ▸ List.mem_cons_self q qs) h)
        · exact List.mem_cons_of_mem d (ih (hsp ▸ List.mem_cons_of_mem q h) hc)

lemma intToChars_chars (n : Int) : ∀ c ∈ intToChars n, c.isDigit = true ∨ c = '-' := by
  intro c hc
  unfold intToChars at hc
  split at hc
  · rcases List.mem_cons.mp hc with h | h
    · right; exact h
    · left; exact natToChars_head_digit _ c h
  · left; exact natToChars_head_digit _ c hc

lemma at_not_mem_intToChars (n : Int) : '@' ∉ intToChars n := by
  intro h
  rcases intToChars_chars n '@' h with h | h
  · exact absurd h (by decide)
  · exact absurd h (by decide)

lemma at_not_mem_natToChars (n : Nat) : '@' ∉ natToChars n := by
  intro h
  exact absurd (natToChars_head_digit n '@' h) (by decide)

lemma intToChars_natCast (n : Nat) : intToChars (n : Int) = natToChars n := by
  unfold intToChars
  rw [if_neg (by omega)]
  norm_num

lemma parseInt64_natToChars (n : Nat) (h : (n : Int) ≤ 2 ^ 63 - 1) :
    parseInt64? (natToChars n) = some (n : Int) := by
  rw [← intToChars_natCast]
  exact parseInt64_intToChars _ (by omega) h

/-- Parsing `"{count}"` (no `@`) yields count with offset 0. -/
lemma NewByterange_natToChars (n : Nat) (h : (n : Int) ≤ 2 ^ 63 - 1) :
    NewByterangeFromString (natToChars n) = some ⟨(n : Int), 0⟩ := by
  unfold NewByterangeFromString
  rw [splitOnChar_no_sep (at_not_mem_natToChars n)]
  show (match parseInt64? (natToChars n) with
    | some count => some (⟨count, 0⟩ : Byterange)
    | none => none) = _
  rw [parseInt64_natToChars n h]

/-- Rendering then parsing a byterange with positive offset restores it. -/
lemma NewByterange_render (b : Byterange) (hoff : 0 < b.Offset)
    (h1 : -(2 ^ 63) ≤ b.Count) (h2 : b.Count ≤ 2 ^ 63 - 1) (h3 : b.Offset ≤ 2 ^ 63 - 1) :
    NewByterangeFromString b.render = some b := by
  unfold Byterange.render
  rw [if_pos hoff]
  unfold NewByterangeFromString
  rw [splitOnChar_sep_mid (at_not_mem_intToChars b.Count),
    splitOnChar_no_sep (at_not_mem_intToChars b.Offset)]
  show (match parseInt64? (intToChars b.Count) with
    | some count =>
      match parseInt64? (intToChars b.Offset) with
      | some offset => some (⟨count, offset⟩ : Byterange)
      | none => none
    | none => none) = some b
  rw [parseInt64_intToChars b.Count h1 h2,
    parseInt64_intToChars b.Offset (by omega) h3]

/-- A successful `parseInt64?` on a string without a minus sign is non-negative. -/
lemma parseInt64_nonneg {cs : List Char} {v : Int} (hm : '-' ∉ cs)
    (hp : parseInt64? cs = some v) : 0 ≤ v := by
  unfold parseInt64? at hp
  split at hp
  · rename_i rest
    exact absurd (List.mem_cons_self '-' rest) hm
  · rcases hpn : parseNat? _ with _ | n <;> rw [hpn] at hp
    · simp at hp
    · change (if (n : Int) ≤ 2 ^ 63 - 1 then some ((n : Nat) : Int) else none) = some v at hp
      split_ifs at hp
      injection hp with hv
      omega
  · rcases hpn : parseNat? _ with _ | n <;> rw [hpn] at hp
    · simp at hp
    · change (if (n : Int) ≤ 2 ^ 63 - 1 then some ((n : Nat) : Int) else none) = some v at hp
      split_ifs at hp
      injection hp with hv
      omega

/-! ## Facts about single decode steps -/

lemma isTag_eq {e : PlaylistEntry} {n : List Char} (h : e.IsTag n = true) :
    e.type = .tag ∧ e.tag = n := by
  unfold PlaylistEntry.IsTag at h
  simp only [Bool.and_eq_true, beq_iff_eq] at h
  exact h

lemma IsTag_false_of_ne {e : PlaylistEntry} {a : List Char} (htag : e.tag = a)
    {b : List Char} (hne : a ≠ b) : e.IsTag b = false := by
  unfold PlaylistEntry.IsTag
  have : (e.tag == b) = false := beq_eq_false_iff_ne.mpr (htag ▸ hne)
  rw [this, Bool.and_false]

lemma IsTag_false_of_not_tag {e : PlaylistEntry} (h : e.type ≠ .tag)
    (b : List Char) : e.IsTag b = false := by
  unfold PlaylistEntry.IsTag
  have : (e.type == .tag) = false := beq_eq_false_iff_ne.mpr h
  rw [this, Bool.false_and]

lemma classify_of_uri {e : PlaylistEntry} (h : e.type = .uri) :
    classifyEntry e = .uriLine := by
  have hf : ∀ b, e.IsTag b = false :=
    IsTag_false_of_not_tag (by rw [h]; exact fun hh => EntryType.noConfusion hh)
  unfold classifyEntry
  simp only [hf, Bool.false_eq_true, if_false]
  exact if_pos h

lemma ite_elim_ne {c : Prop} [Decidable c] {α : Type} {a b v : α} (hv : a ≠ v)
    (h : (if c then a else b) = v) : ¬c ∧ b = v := by
  by_cases hc : c
  · rw [if_pos hc] at h; exact absurd h hv
  · rw [if_neg hc] at h; exact ⟨hc, h⟩

lemma classify_uriLine_type {e : PlaylistEntry} (h : classifyEntry e = .uriLine) :
    e.type = .uri := by
  unfold classifyEntry at h
  obtain ⟨-, h⟩ := ite_elim_ne (by decide) h
  obtain ⟨-, h⟩ := ite_elim_ne (by decide) h
  obtain ⟨-, h⟩ := ite_elim_ne (by decide) h
  obtain ⟨-, h⟩ := ite_elim_ne (by decide) h
  obtain ⟨-, h⟩ := ite_elim_ne (by decide) h
  obtain ⟨-, h⟩ := ite_elim_ne (by decide) h
  obtain ⟨-, h⟩ := ite_elim_ne (by decide) h
  obtain ⟨-, h⟩ := ite_elim_ne (by decide) h
  obtain ⟨-, h⟩ := ite_elim_ne (by decide) h
  obtain ⟨-, h⟩ := ite_elim_ne (by decide) h
  rcases ite_eq_iff.mp h with ⟨hc, -⟩ | ⟨-, hh⟩
  · exact hc
  · exact absurd hh (by decide)

lemma classify_of_disc {e : PlaylistEntry}
    (h : e.IsTag "EXT-X-DISCONTINUITY".data = true) : classifyEntry e = .disc := by
  obtain ⟨ht, htag⟩ := isTag_eq h
  unfold classifyEntry
  rw [IsTag_false_of_ne htag (show "EXT-X-DISCONTINUITY".data ≠ "EXT-X-VERSION".data by decide),
    IsTag_false_of_ne htag (show "EXT-X-DISCONTINUITY".data ≠ "EXT-X-TARGETDURATION".data by decide),
    IsTag_false_of_ne htag (show "EXT-X-DISCONTINUITY".data ≠ "EXT-X-MEDIA-SEQUENCE".data by decide),
    IsTag_false_of_ne htag (show "EXT-X-DISCONTINUITY".data ≠ "EXT-X-PLAYLIST-TYPE".data by decide),
    IsTag_false_of_ne htag (show "EXT-X-DISCONTINUITY".data ≠ "EXT-X-MAP".data by decide),
    IsTag_false_of_ne htag (show "EXT-X-DISCONTINUITY".data ≠ "EXTINF".data by decide),
    IsTag_false_of_ne htag (show "EXT-X-DISCONTINUITY".data ≠ "EXT-X-BYTERANGE".data by decide),
    IsTag_false_of_ne htag (show "EXT-X-DISCONTINUITY".data ≠ "EXT-X-KEY".data by decide),
    IsTag_false_of_ne htag
      (show "EXT-X-DISCONTINUITY".data ≠ "EXT-X-PROGRAM-DATE-TIME".data by decide), h]
  simp only [Bool.false_eq_true, if_false, if_true]

lemma classify_disc_isTag {e : PlaylistEntry} (h : classifyEntry e = .disc) :
    e.IsTag "EXT-X-DISCONTINUITY".data = true := by
  unfold classifyEntry at h
  obtain ⟨-, h⟩ := ite_elim_ne (by decide) h
  obtain ⟨-, h⟩ := ite_elim_ne (by decide) h
  obtain ⟨-, h⟩ := ite_elim_ne (by decide) h
  obtain ⟨-, h⟩ := ite_elim_ne (by decide) h
  obtain ⟨-, h⟩ := ite_elim_ne (by decide) h
  obtain ⟨-, h⟩ := ite_elim_ne (by decide) h
  obtain ⟨-, h⟩ := ite_elim_ne (by decide) h
  obtain ⟨-, h⟩ := ite_elim_ne (by decide) h
  obtain ⟨-, h⟩ := ite_elim_ne (by decide) h
  rcases ite_eq_iff.mp h with ⟨hc, -⟩ | ⟨-, hh⟩
  · exact hc
  · obtain ⟨-, hh⟩ := ite_elim_ne (by decide) hh
    exact absurd hh (by decide)

lemma classify_of_byterange {e : PlaylistEntry}
    (h : e.IsTag "EXT-X-BYTERANGE".data = true) : classifyEntry e = .byterange := by
  obtain ⟨ht, htag⟩ := isTag_eq h
  unfold classifyEntry
  rw [IsTag_false_of_ne htag (show "EXT-X-BYTERANGE".data ≠ "EXT-X-VERSION".data by decide),
    IsTag_false_of_ne htag (show "EXT-X-BYTERANGE".data ≠ "EXT-X-TARGETDURATION".data by decide),
    IsTag_false_of_ne htag (show "EXT-X-BYTERANGE".data ≠ "EXT-X-MEDIA-SEQUENCE".data by decide),
    IsTag_false_of_ne htag (show "EXT-X-BYTERANGE".data ≠ "EXT-X-PLAYLIST-TYPE".data by decide),
    IsTag_false_of_ne htag (show "EXT-X-BYTERANGE".data ≠ "EXT-X-MAP".data by decide),
    IsTag_false_of_ne htag (show "EXT-X-BYTERANGE".data ≠ "EXTINF".data by decide), h]
  simp only [Bool.false_eq_true, if_false, if_true]

lemma stepEntry_uri (st : DecodeState) (e : PlaylistEntry) (h : e.type = .uri) :
    stepEntry st e = (some (emittedSegment st e.uri), postEmitState st) := by
  unfold stepEntry
  rw [classify_of_uri h]

lemma stepEntry_fst (st : DecodeState) (e : PlaylistEntry) :
    (stepEntry st e).1 =
      if e.type = .uri then some (emittedSegment st e.uri) else none := by
  by_cases h : e.type = .uri
  · rw [stepEntry_uri st e h, if_pos h]
  · rw [if_neg h]
    unfold stepEntry
    generalize hc : classifyEntry e = c
    cases c <;> first
      | rfl
      | (rcases splitN2 ',' e.value with _ | ⟨p0, _ | ⟨p1, t⟩⟩ <;> rfl)
      | (rcases NewByterangeFromString (trimAscii e.value) with _ | br <;> rfl)
      | exact absurd (classify_uriLine_type hc) h

lemma stepEntry_disc (st : DecodeState) (e : PlaylistEntry) :
    (stepEntry st e).2.discontinuityCount =
      if e.IsTag "EXT-X-DISCONTINUITY".data then st.discontinuityCount + 1
      else st.discontinuityCount := by
  by_cases h : e.IsTag "EXT-X-DISCONTINUITY".data = true
  · rw [if_pos h]
    unfold stepEntry
    rw [classify_of_disc h]
  · rw [if_neg h]
    unfold stepEntry
    generalize hc : classifyEntry e = c
    cases c <;> first
      | rfl
      | (rcases splitN2 ',' e.value with _ | ⟨p0, _ | ⟨p1, t⟩⟩ <;> rfl)
      | (rcases NewByterangeFromString (trimAscii e.value) with _ | br <;> rfl)
      | exact absurd (classify_disc_isTag hc) h

lemma stepEntry_lastEnd (st : DecodeState) (e : PlaylistEntry) (h : e.type ≠ .uri) :
    (stepEntry st e).2.lastByterangeEnd = st.lastByterangeEnd := by
  unfold stepEntry
  generalize hc : classifyEntry e = c
  cases c <;> first
    | rfl
    | (rcases splitN2 ',' e.value with _ | ⟨p0, _ | ⟨p1, t⟩⟩ <;> rfl)
    | (rcases NewByterangeFromString (trimAscii e.value) with _ | br <;> rfl)
    | exact absurd (classify_uriLine_type hc) h

/-- The `EXT-X-BYTERANGE` case of the decoder switch, with the
contiguous-offset inference applied. -/
lemma stepEntry_byterange_tag (st : DecodeState) (e : PlaylistEntry)
    (h : e.IsTag "EXT-X-BYTERANGE".data = true) {br : Byterange}
    (hbr : NewByterangeFromString (trimAscii e.value) = some br) :
    stepEntry st e =
      (none, { st with currentByterange := some (byterangeInferred st br) }) := by
  unfold stepEntry
  rw [classify_of_byterange h, hbr]

lemma discBefore_cons_succ (e : PlaylistEntry) (rest : List PlaylistEntry) (i : Nat) :
    discBefore (e :: rest) (i + 1) =
      discBefore rest i + (if e.IsTag "EXT-X-DISCONTINUITY".data then 1 else 0) := by
  unfold discBefore
  rw [List.take_succ_cons, List.countP_cons]

lemma discBefore_mono (es : List PlaylistEntry) {i j : Nat} (h : i ≤ j) :
    discBefore es i ≤ discBefore es j := by
  unfold discBefore
  exact ((List.take_prefix_take_left es h).sublist).countP_le _

lemma uriPositions_cons (e : PlaylistEntry) (rest : List PlaylistEntry) :
    uriPositions (e :: rest) =
      if e.type = .uri then 0 :: (uriPositions rest).map (· + 1)
      else (uriPositions rest).map (· + 1) := rfl

lemma uriPositions_chain (es : List PlaylistEntry) :
    List.Chain' (· ≤ ·) (uriPositions es) := by
  induction es with
  | nil => simp [uriPositions]
  | cons e rest ih =>
    have hmap : List.Chain' (· ≤ ·) ((uriPositions rest).map (· + 1)) :=
      List.chain'_map_of_chain' (fun i : Nat => i + 1)
        (fun a b hab => Nat.add_le_add_right hab 1) ih
    rw [uriPositions_cons]
    split
    · exact List.chain'_cons'.mpr ⟨fun y _ => Nat.zero_le y, hmap⟩
    · exact hmap

/-- The discontinuity indices of the emitted segments are exactly the
running counts of `EXT-X-DISCONTINUITY` tags before each URI entry. -/
lemma runEntries_map_disc (es : List PlaylistEntry) : ∀ st : DecodeState,
    ((runEntries st es).1).map Segment.discontinuitySeq =
      (uriPositions es).map (fun i => st.discontinuityCount + discBefore es i) := by
  induction es with
  | nil => intro st; rfl
  | cons e rest ih =>
    intro st
    have hstep : (runEntries st (e :: rest)).1
        = (stepEntry st e).1.toList ++ (runEntries (stepEntry st e).2 rest).1 := rfl
    rw [hstep, List.map_append, ih ((stepEntry st e).2), uriPositions_cons]
    have hd2 := stepEntry_disc st e
    by_cases hu : e.type = .uri
    · have hiu : e.IsTag "EXT-X-DISCONTINUITY".data = false :=
        IsTag_false_of_not_tag (by rw [hu]; exact fun hh => EntryType.noConfusion hh) _
      rw [if_pos hu, stepEntry_uri st e hu]
      simp only [Option.toList_some, List.map_cons, List.map_nil, List.singleton_append,
        List.map_map]
      refine (List.cons_eq_cons).mpr ⟨?_, ?_⟩
      · show st.discontinuityCount = st.discontinuityCount + discBefore (e :: rest) 0
        simp [discBefore]
      · apply List.map_congr_left
        intro i _
        show (postEmitState st).discontinuityCount + discBefore rest i
            = st.discontinuityCount + discBefore (e :: rest) (i + 1)
        rw [discBefore_cons_succ, hiu]
        show st.discontinuityCount + discBefore rest i = _
        simp
    · rw [if_neg hu]
      have hnone : (stepEntry st e).1 = none := by
        rw [stepEntry_fst, if_neg hu]
      rw [hnone]
      simp only [Option.toList_none, List.nil_append, List.map_map]
      apply List.map_congr_left
      intro i _
      simp only [Function.comp_apply, discBefore_cons_succ, hd2]
      rcases h : e.IsTag "EXT-X-DISCONTINUITY".data
      · simp [h]
      · simp [h]
        omega

lemma masterShaped_cons_pos_extinf {e : PlaylistEntry} (rest : List PlaylistEntry)
    (h : e.IsTag "EXTINF".data = true) : masterShaped (e :: rest) = false := by
  unfold masterShaped
  rw [List.find?_cons_of_pos _ (by simp [h])]
  exact IsTag_false_of_ne (isTag_eq h).2 (by decide)

lemma masterShaped_cons_pos_stream {e : PlaylistEntry} (rest : List PlaylistEntry)
    (h : e.IsTag "EXT-X-STREAM-INF".data = true) : masterShaped (e :: rest) = true := by
  unfold masterShaped
  rw [List.find?_cons_of_pos _ (by simp [h])]
  exact h

lemma masterShaped_cons_neg {e : PlaylistEntry} (rest : List PlaylistEntry)
    (h1 : e.IsTag "EXTINF".data = false) (h2 : e.IsTag "EXT-X-STREAM-INF".data = false) :
    masterShaped (e :: rest) = masterShaped rest := by
  unfold masterShaped
  rw [List.find?_cons_of_neg _ (by simp [h1, h2])]

/-- The decoder's playlist-shape scan agrees with the spec-side
condition: it reports a media playlist exactly when the playlist is not
master-shaped. -/
lemma isMediaPlaylist_eq_not_masterShaped (es : List PlaylistEntry) :
    isMediaPlaylist es = !masterShaped es := by
  induction es with
  | nil => rfl
  | cons e rest ih =>
    unfold isMediaPlaylist
    by_cases h1 : e.IsTag "EXTINF".data = true
    · rw [if_pos h1, masterShaped_cons_pos_extinf rest h1]
      rfl
    · rw [if_neg h1]
      by_cases h2 : e.IsTag "EXT-X-STREAM-INF".data = true
      · rw [if_pos h2, masterShaped_cons_pos_stream rest h2]
        rfl
      · rw [if_neg h2,
          masterShaped_cons_neg rest (Bool.not_eq_true _ ▸ h1) (Bool.not_eq_true _ ▸ h2)]
        exact ih

lemma getAssoc?_map_put_self {α : Type} (a : List (List Char × α)) (k : List Char) (v : α)
    (h : a.any (fun p => p.1 == k) = true) :
    getAssoc? (a.map (fun p => if p.1 == k then (k, v) else p)) k = some v := by
  induction a with
  | nil => simp at h
  | cons hd tl ih =>
    unfold getAssoc?
    simp only [List.map_cons]
    by_cases h1 : (hd.1 == k) = true
    · rw [if_pos h1, List.find?_cons_of_pos _ (by simp)]
      rfl
    · rw [if_neg h1, List.find?_cons_of_neg _ (by simpa using h1)]
      have h' : tl.any (fun p => p.1 == k) = true := by
        rcases List.any_eq_true.mp h with ⟨p, hp, hpk⟩
        rcases List.mem_cons.mp hp with rfl | hptl
        · exact absurd hpk (by simpa using h1)
        · exact List.any_eq_true.mpr ⟨p, hptl, hpk⟩
      exact ih h'

lemma getAssoc?_append_single_self {α : Type} (a : List (List Char × α)) (k : List Char)
    (v : α) (h : a.any (fun p => p.1 == k) = false) :
    getAssoc? (a ++ [(k, v)]) k = some v := by
  unfold getAssoc?
  rw [List.find?_append]
  have hnone : List.find? (fun p => p.1 == k) a = none := by
    rw [List.find?_eq_none]
    intro x hx hpx
    have hany : a.any (fun p => p.1 == k) = true := List.any_eq_true.mpr ⟨x, hx, hpx⟩
    rw [h] at hany
    exact Bool.false_ne_true hany
  have hone : List.find? (fun p => p.1 == k) [(k, v)] = some (k, v) :=
    List.find?_cons_of_pos _ (by simp)
  rw [hnone, Option.none_or, hone]
  rfl

/-- The Go-map overwrite: reading back the key just written. -/
lemma getAssoc?_putAssoc_self {α : Type} (a : List (List Char × α)) (k : List Char) (v : α) :
    getAssoc? (putAssoc a k v) k = some v := by
  unfold putAssoc
  by_cases h : a.any (fun p => p.1 == k) = true
  · rw [if_pos h]
    exact getAssoc?_map_put_self a k v h
  · rw [if_neg h]
    exact getAssoc?_append_single_self a k v (Bool.eq_false_iff.mpr h)

lemma find?_map_put_ne {α : Type} (a : List (List Char × α)) (k kq : List Char) (v : α)
    (h : kq ≠ k) :
    List.find? (fun p => p.1 == kq) (a.map (fun p => if p.1 == k then (k, v) else p))
      = List.find? (fun p => p.1 == kq) a := by
  induction a with
  | nil => rfl
  | cons hd tl ih =>
    simp only [List.map_cons]
    by_cases h1 : (hd.1 == k) = true
    · have hh : hd.1 = k := by simpa using h1
      have e1 : List.find? (fun p => p.1 == kq)
          ((k, v) :: tl.map (fun p => if p.1 == k then (k, v) else p))
          = List.find? (fun p => p.1 == kq)
              (tl.map (fun p => if p.1 == k then (k, v) else p)) :=
        List.find?_cons_of_neg _ (by simp only [beq_iff_eq]; exact fun hc => h hc.symm)
      have e2 : List.find? (fun p => p.1 == kq) (hd :: tl)
          = List.find? (fun p => p.1 == kq) tl :=
        List.find?_cons_of_neg _ (by simp only [beq_iff_eq, hh]; exact fun hc => h hc.symm)
      rw [if_pos h1, e1, e2]
      exact ih
    · rw [if_neg h1]
      by_cases hq : (hd.1 == kq) = true
      · have e1 : List.find? (fun p => p.1 == kq)
            (hd :: tl.map (fun p => if p.1 == k then (k, v) else p)) = some hd :=
          List.find?_cons_of_pos _ hq
        have e2 : List.find? (fun p => p.1 == kq) (hd :: tl) = some hd :=
          List.find?_cons_of_pos _ hq
        rw [e1, e2]
      · have e1 : List.find? (fun p => p.1 == kq)
            (hd :: tl.map (fun p => if p.1 == k then (k, v) else p))
            = List.find? (fun p => p.1 == kq)
                (tl.map (fun p => if p.1 == k then (k, v) else p)) :=
          List.find?_cons_of_neg _ hq
        have e2 : List.find? (fun p => p.1 == kq) (hd :: tl)
            = List.find? (fun p => p.1 == kq) tl :=
          List.find?_cons_of_neg _ hq
        rw [e1, e2]
        exact ih

/-- Writing one key leaves the others unchanged. -/
lemma getAssoc?_putAssoc_ne {α : Type} (a : List (List Char × α)) (k kq : List Char)
    (v : α) (h : kq ≠ k) : getAssoc? (putAssoc a k v) kq = getAssoc? a kq := by
  unfold putAssoc
  split
  · unfold getAssoc?
    rw [find?_map_put_ne a k kq v h]
  · unfold getAssoc?
    have hone : List.find? (fun p => p.1 == kq) [(k, v)] = none := by
      have e1 : List.find? (fun p => p.1 == kq) ((k, v) :: ([] : List (List Char × α)))
          = List.find? (fun p => p.1 == kq) [] :=
        List.find?_cons_of_neg _ (by simp only [beq_iff_eq]; exact fun hc => h hc.symm)
      rw [e1]
      rfl
    rw [List.find?_append, hone, Option.or_none]

lemma attrGet_putAssoc_self (a : AttributeList) (k : List Char) (v : List Char) :
    attrGet (putAssoc a k v) k = v := by
  unfold attrGet
  rw [getAssoc?_putAssoc_self]
  rfl

lemma attrGet_putAssoc_ne (a : AttributeList) (k kq : List Char) (v : List Char)
    (h : kq ≠ k) : attrGet (putAssoc a k v) kq = attrGet a kq := by
  unfold attrGet
  rw [getAssoc?_putAssoc_ne a k kq v h]

lemma intToChars_ne_nil (n : Int) : intToChars n ≠ [] := by
  unfold intToChars
  split
  · simp
  · exact natToChars_ne_nil _

/-! ## Claim theorems -/

/-- **C1.** For every input, `Decode` fails with the invalid-playlist
error whenever the classified line list is empty or its first entry is
not the `EXTM3U` tag (the head check covers both cases); the witness
instantiates this at `"This is not a valid playlist"` and at the empty
string. -/
theorem decode_invalid_playlist (input : List Char)
    (h : ((classifyLines input).head?.all (fun e => !e.IsTag "EXTM3U".data)) = true) :
    Decode input = .error .invalidPlaylist := by
  unfold Decode parsePlaylist
  rcases hcl : classifyLines input with _ | ⟨e, rest⟩
  · rfl
  · rw [hcl] at h
    have he : e.IsTag "EXTM3U".data = false := by
      simpa using h
    show (match (if e.IsTag "EXTM3U".data = true then Except.ok (e :: rest)
          else Except.error DecodeError.invalidPlaylist) with
        | Except.error err => Except.error err
        | Except.ok entries => decodeFromEntries entries)
      = Except.error DecodeError.invalidPlaylist
    rw [if_neg (by simp [he])]

/-- Witness for C1: both test inputs satisfy the head condition and fail
with the invalid-playlist error. -/
theorem decode_invalid_playlist_witness :
    (((classifyLines invalidInput).head?.all (fun e => !e.IsTag "EXTM3U".data)) = true
      ∧ Decode invalidInput = .error .invalidPlaylist)
    ∧ (((classifyLines ([] : List Char)).head?.all (fun e => !e.IsTag "EXTM3U".data)) = true
      ∧ Decode ([] : List Char) = .error .invalidPlaylist) :=
  ⟨⟨by decide, decode_invalid_playlist invalidInput (by decide)⟩,
   ⟨by decide, decode_invalid_playlist [] (by decide)⟩⟩

/-- **C2.** For every classified line list headed by the `EXTM3U` tag,
`Decode` returns the not-implemented (unsupported playlist type) error
exactly when no `EXTINF` tag precedes the first `EXT-X-STREAM-INF` tag
(`masterShaped`), covering both the STREAM-INF-first and the
neither-tag case; when an `EXTINF` tag comes first, media-playlist
decoding proceeds; and the unsupported error is distinct from the
invalid-playlist error. -/
theorem decode_master_unsupported (input : List Char) (e : PlaylistEntry)
    (rest : List PlaylistEntry) (hcl : classifyLines input = e :: rest)
    (h : e.IsTag "EXTM3U".data = true) :
    (Decode input = .error .unsupported ↔ masterShaped (e :: rest) = true)
    ∧ (masterShaped (e :: rest) = false →
        Decode input = .ok (decodeMediaPlaylist (e :: rest)))
    ∧ DecodeError.unsupported ≠ DecodeError.invalidPlaylist := by
  have hD : Decode input = decodeFromEntries (e :: rest) := by
    unfold Decode parsePlaylist
    rw [hcl]
    show (match (if e.IsTag "EXTM3U".data = true then Except.ok (e :: rest)
          else Except.error DecodeError.invalidPlaylist) with
        | Except.error err => Except.error err
        | Except.ok entries => decodeFromEntries entries)
      = decodeFromEntries (e :: rest)
    rw [if_pos h]
  rw [hD]
  unfold decodeFromEntries
  rw [isMediaPlaylist_eq_not_masterShaped]
  rcases hm : masterShaped (e :: rest)
  · simp
  · simp

/-- Witness for C2: a master playlist (STREAM-INF before any EXTINF) is
rejected as unsupported, and a playlist with EXTINF first decodes. -/
theorem decode_master_unsupported_witness :
    (classifyLines masterInput = extm3uEntry :: (classifyLines masterInput).tail
      ∧ Decode masterInput = .error .unsupported)
    ∧ Decode simpleMediaInput
        = .ok (decodeMediaPlaylist (classifyLines simpleMediaInput)) := by
  refine ⟨⟨by decide, ?_⟩, ?_⟩
  · exact ((decode_master_unsupported masterInput extm3uEntry
      (classifyLines masterInput).tail (by decide) (by decide)).1).mpr (by decide)
  · have hm := (decode_master_unsupported simpleMediaInput extm3uEntry
      (classifyLines simpleMediaInput).tail (by decide) (by decide)).2.1 (by decide)
    exact hm.trans (by rfl)

/-- **C10.** Every timeline returned by a successful `Decode` holds
exactly one track, of kind Video, with an empty name — whatever the
playlist contained. -/
theorem decode_single_video_track (input : List Char) (t : Timeline)
    (h : Decode input = .ok t) :
    ∃ tr, t.tracks = [tr] ∧ tr.kind = TrackKind.video ∧ tr.name = [] := by
  unfold Decode at h
  rcases hp : parsePlaylist input with err | es <;> rw [hp] at h
  · exact absurd h (by simp)
  · have h' : (if isMediaPlaylist es = true then Except.ok (decodeMediaPlaylist es)
        else Except.error DecodeError.unsupported) = Except.ok t := h
    by_cases hm : isMediaPlaylist es = true
    · rw [if_pos hm] at h'
      injection h' with h'
      subst h'
      exact ⟨_, rfl, rfl, rfl⟩
    · rw [if_neg hm] at h'
      exact absurd h' (by simp)

/-- Witness for C10 at the simple media playlist. -/
theorem decode_single_video_track_witness :
    Decode simpleMediaInput = .ok (decodeMediaPlaylist (classifyLines simpleMediaInput))
    ∧ ∃ tr, (decodeMediaPlaylist (classifyLines simpleMediaInput)).tracks = [tr]
        ∧ tr.kind = TrackKind.video ∧ tr.name = [] :=
  ⟨rfl, decode_single_video_track simpleMediaInput _ rfl⟩

/-- **C3.** Byterange round-trip: rendering the parse of a decimal count
string gives that string back (offset 0 elided), and parsing the
rendering of any byterange with positive offset restores it; the
quantifiers range over the `int64`-representable values the Go fields
hold. -/
theorem byterange_roundtrip :
    (∀ n : Nat, (n : Int) ≤ 2 ^ 63 - 1 →
      (NewByterangeFromString (natToChars n)).map Byterange.render = some (natToChars n))
    ∧ (∀ b : Byterange, 0 < b.Offset → -(2 ^ 63) ≤ b.Count → b.Count ≤ 2 ^ 63 - 1 →
        b.Offset ≤ 2 ^ 63 - 1 → NewByterangeFromString b.render = some b) := by
  constructor
  · intro n hn
    rw [NewByterange_natToChars n hn]
    show some (Byterange.render ⟨(n : Int), 0⟩) = some (natToChars n)
    unfold Byterange.render
    rw [if_neg (by simp), intToChars_natCast]
  · intro b h1 h2 h3 h4
    exact NewByterange_render b h1 h2 h3 h4

/-- Witness for C3 at the values of `TestParseByterange`. -/
theorem byterange_roundtrip_witness :
    (((535192 : Nat) : Int) ≤ 2 ^ 63 - 1
      ∧ (NewByterangeFromString (natToChars 535192)).map Byterange.render
          = some (natToChars 535192))
    ∧ (0 < (Byterange.mk 534220 1361).Offset
      ∧ NewByterangeFromString (Byterange.mk 534220 1361).render
          = some (Byterange.mk 534220 1361)) :=
  ⟨⟨by norm_num, byterange_roundtrip.1 535192 (by norm_num)⟩,
   ⟨by norm_num, byterange_roundtrip.2 ⟨534220, 1361⟩ (by norm_num) (by norm_num)
      (by norm_num) (by norm_num)⟩⟩

/-- **C9 (counterexample).** The byterange parser accepts a signed count:
`"-5"` parses successfully with count `-5 < 0`, so not every accepted
input has non-negative fields. -/
theorem byterange_negative_accepted :
    NewByterangeFromString ('-' :: '5' :: []) = some ⟨-5, 0⟩
    ∧ (Byterange.mk (-5) 0).Count < 0 := by
  constructor
  · rfl
  · decide

/-- **C9 (amended).** For every accepted input containing no minus sign
— in particular every input whose numeric parts are plain digit strings,
the only shape the HLS grammar produces — the parsed count and offset
are non-negative. (`strconv.ParseInt` also accepts signed values, so
`count < 0` is reachable, e.g. from `"-5"`.) -/
theorem byterange_nonneg_of_unsigned (s : List Char) (b : Byterange)
    (hp : NewByterangeFromString s = some b) (hm : '-' ∉ s) :
    0 ≤ b.Count ∧ 0 ≤ b.Offset := by
  unfold NewByterangeFromString at hp
  rcases hsp : splitOnChar '@' s with _ | ⟨p0, ps⟩ <;> rw [hsp] at hp
  · exact absurd hp (by simp)
  · have hm0 : '-' ∉ p0 := fun hc =>
      hm (mem_of_mem_splitOnChar (hsp ▸ List.mem_cons_self p0 ps) hc)
    rcases ps with _ | ⟨p1, ps'⟩
    · have h0 : (match parseInt64? p0 with
          | some count => some (⟨count, 0⟩ : Byterange)
          | none => none) = some b := hp
      rcases hpi : parseInt64? p0 with _ | v <;> rw [hpi] at h0
      · exact absurd h0 (by simp)
      · injection h0 with h0
        subst h0
        exact ⟨parseInt64_nonneg hm0 hpi, le_refl 0⟩
    · rcases ps' with _ | _
      · have hm1 : '-' ∉ p1 := fun hc =>
          hm (mem_of_mem_splitOnChar
            (hsp ▸ List.mem_cons_of_mem p0 (List.mem_cons_self p1 _)) hc)
        have h0 : (match parseInt64? p0 with
            | some count =>
              match parseInt64? p1 with
              | some offset => some (⟨count, offset⟩ : Byterange)
              | none => none
            | none => none) = some b := hp
        rcases hpi : parseInt64? p0 with _ | v <;> rw [hpi] at h0
        · exact absurd h0 (by simp)
        · rcases hpj : parseInt64? p1 with _ | w <;> rw [hpj] at h0
          · exact absurd h0 (by simp)
          · injection h0 with h0
            subst h0
            exact ⟨parseInt64_nonneg hm0 hpi, parseInt64_nonneg hm1 hpj⟩
      · exact absurd hp (by simp)

/-- Witness for the amended C9 at the input `"652@0"`. -/
theorem byterange_nonneg_of_unsigned_witness :
    (NewByterangeFromString "652@0".data = some ⟨652, 0⟩
      ∧ '-' ∉ "652@0".data)
    ∧ (0 : Int) ≤ (Byterange.mk 652 0).Count ∧ (0 : Int) ≤ (Byterange.mk 652 0).Offset :=
  ⟨⟨by rfl, by decide⟩,
   byterange_nonneg_of_unsigned "652@0".data ⟨652, 0⟩ (by rfl) (by decide)⟩

/-- **C5.** Sticky versus per-segment state: one `EXT-X-KEY` tag followed
by two URI lines attaches the same key to both segments; a
`PROGRAM-DATE-TIME` tag before one URI line appears on that segment only;
and after every emitted segment the duration, title, byterange and
program-date-time are cleared while key, discontinuity count and
init-segment fields are kept. -/
theorem decode_sticky_and_reset :
    ((Decode keyInput).map
        (fun t => t.tracks.map (fun tr => tr.segments.map Segment.clipKeyMeta))
      = .ok [[some keyVal, some keyVal]])
    ∧ ((Decode pdtInput).map
        (fun t => t.tracks.map (fun tr => tr.segments.map Segment.clipPdtMeta))
      = .ok [[some "2023-01-01T00:00:00.000Z".data, none]])
    ∧ (∀ (st : DecodeState) (e : PlaylistEntry), e.type = .uri →
        (stepEntry st e).2.currentDuration = 0
        ∧ (stepEntry st e).2.currentTitle = []
        ∧ (stepEntry st e).2.currentByterange = none
        ∧ (stepEntry st e).2.currentProgramDateTime = []
        ∧ (stepEntry st e).2.currentKey = st.currentKey
        ∧ (stepEntry st e).2.discontinuityCount = st.discontinuityCount
        ∧ (stepEntry st e).2.mapURI = st.mapURI
        ∧ (stepEntry st e).2.mapByterange = st.mapByterange) := by
  refine ⟨by rfl, by rfl, ?_⟩
  intro st e h
  rw [stepEntry_uri st e h]
  exact ⟨rfl, rfl, rfl, rfl, rfl, rfl, rfl, rfl⟩

/-- Witness for C5's reset contract at a fully-populated state. -/
theorem decode_sticky_and_reset_witness :
    (stepEntry c5State c5Entry).2.currentDuration = 0
    ∧ (stepEntry c5State c5Entry).2.currentTitle = []
    ∧ (stepEntry c5State c5Entry).2.currentByterange = none
    ∧ (stepEntry c5State c5Entry).2.currentProgramDateTime = []
    ∧ (stepEntry c5State c5Entry).2.currentKey = c5State.currentKey
    ∧ (stepEntry c5State c5Entry).2.discontinuityCount = c5State.discontinuityCount
    ∧ (stepEntry c5State c5Entry).2.mapURI = c5State.mapURI
    ∧ (stepEntry c5State c5Entry).2.mapByterange = c5State.mapByterange :=
  decode_sticky_and_reset.2.2 c5State c5Entry rfl

/-- **C6.** Discontinuity monotonicity: in every decoded media playlist,
the segments' discontinuity indices are exactly the counts of
`EXT-X-DISCONTINUITY` tags before each segment's URI line (`uriPositions`
and `discBefore`), so the index sequence is non-decreasing and rises by
exactly one across each tag; the index read back from clip metadata
defaults to 0 when the key is absent and agrees with the state value. -/
theorem discontinuity_monotone (es : List PlaylistEntry) :
    ((decodeMediaPlaylist es).tracks.map
        (fun tr => tr.segments.map Segment.discontinuitySeq)
      = [(uriPositions es).map (discBefore es)])
    ∧ List.Chain' (· ≤ ·) ((uriPositions es).map (discBefore es))
    ∧ ((decodeMediaPlaylist es).tracks.map
        (fun tr => tr.segments.map (fun s => (s.clipDiscMeta).getD 0))
      = (decodeMediaPlaylist es).tracks.map
          (fun tr => tr.segments.map Segment.discontinuitySeq)) := by
  have h1 : ((runEntries ({} : DecodeState) es).1).map Segment.discontinuitySeq
      = (uriPositions es).map (discBefore es) := by
    rw [runEntries_map_disc es {}]
    apply List.map_congr_left
    intro i _
    show (0 : Nat) + discBefore es i = discBefore es i
    omega
  refine ⟨?_, ?_, ?_⟩
  · show [((runEntries ({} : DecodeState) es).1).map Segment.discontinuitySeq]
      = [(uriPositions es).map (discBefore es)]
    rw [h1]
  · exact List.chain'_map_of_chain' (discBefore es)
      (fun a b hab => discBefore_mono es hab) (uriPositions_chain es)
  · show [((runEntries ({} : DecodeState) es).1).map (fun s => (s.clipDiscMeta).getD 0)]
      = [((runEntries ({} : DecodeState) es).1).map Segment.discontinuitySeq]
    congr 1
    apply List.map_congr_left
    intro s _
    unfold Segment.clipDiscMeta
    split
    · rfl
    · rename_i hz
      show (0 : Nat) = s.discontinuitySeq
      omega

/-- One fold step of `runEntries`. -/
lemma runEntries_cons (st : DecodeState) (e : PlaylistEntry)
    (rest : List PlaylistEntry) :
    runEntries st (e :: rest)
      = ((stepEntry st e).1.toList ++ (runEntries (stepEntry st e).2 rest).1,
         (runEntries (stepEntry st e).2 rest).2) := rfl

/-- **C7.** Contiguous byterange inference: a parsed `EXT-X-BYTERANGE`
with offset 0 continues from a positive `lastByterangeEnd`; that tracker
changes only when a segment is emitted, and then only if a byterange was
staged; consequently, two consecutive byteranged segments with the second
offset omitted give the second segment an offset equal to the first's
offset plus count. -/
theorem byterange_contiguity :
    (∀ (st : DecodeState) (e : PlaylistEntry) (br : Byterange),
      e.IsTag "EXT-X-BYTERANGE".data = true →
      NewByterangeFromString (trimAscii e.value) = some br →
      br.Offset = 0 → st.lastByterangeEnd > 0 →
      (stepEntry st e).2.currentByterange = some ⟨br.Count, st.lastByterangeEnd⟩)
    ∧ (∀ (st : DecodeState) (e : PlaylistEntry), e.type ≠ .uri →
        (stepEntry st e).2.lastByterangeEnd = st.lastByterangeEnd)
    ∧ (∀ (st : DecodeState) (e : PlaylistEntry), e.type = .uri →
        (stepEntry st e).2.lastByterangeEnd =
          (match st.currentByterange with
           | some br => br.Offset + br.Count
           | none => st.lastByterangeEnd))
    ∧ (∀ (st : DecodeState) (u1 e2 u2 : PlaylistEntry) (br1 br2 : Byterange),
        st.currentByterange = some br1 → 0 < br1.Offset + br1.Count →
        u1.type = .uri → e2.IsTag "EXT-X-BYTERANGE".data = true →
        NewByterangeFromString (trimAscii e2.value) = some br2 → br2.Offset = 0 →
        u2.type = .uri →
        ((runEntries st [u1, e2, u2]).1).map Segment.byterange
          = [some br1, some ⟨br2.Count, br1.Offset + br1.Count⟩]) := by
  refine ⟨?_, ?_, ?_, ?_⟩
  · intro st e br h hbr hoff hpos
    rw [stepEntry_byterange_tag st e h hbr]
    show some (byterangeInferred st br) = some ⟨br.Count, st.lastByterangeEnd⟩
    unfold byterangeInferred
    rw [if_pos ⟨hoff, hpos⟩]
  · exact fun st e h => stepEntry_lastEnd st e h
  · intro st e h
    rw [stepEntry_uri st e h]
    rfl
  · intro st u1 e2 u2 br1 br2 hcb hpos h1 h2 hbr hoff h3
    have hlast : (postEmitState st).lastByterangeEnd = br1.Offset + br1.Count := by
      show (match st.currentByterange with
        | some br => br.Offset + br.Count
        | none => st.lastByterangeEnd) = br1.Offset + br1.Count
      rw [hcb]
    have hinf : byterangeInferred (postEmitState st) br2
        = ⟨br2.Count, br1.Offset + br1.Count⟩ := by
      unfold byterangeInferred
      rw [if_pos ⟨hoff, by rw [hlast]; exact hpos⟩, hlast]
    rw [runEntries_cons, stepEntry_uri st u1 h1]
    dsimp only
    rw [runEntries_cons, stepEntry_byterange_tag (postEmitState st) e2 h2 hbr]
    dsimp only
    rw [runEntries_cons,
      stepEntry_uri _ u2 h3]
    dsimp only
    show [st.currentByterange, some (byterangeInferred (postEmitState st) br2)]
      = [some br1, some ⟨br2.Count, br1.Offset + br1.Count⟩]
    rw [hcb, hinf]

/-- Witness for C7 at the byteranges of `TestDecodePlaylistWithByteranges`:
the second segment continues at offset 652 + 534220. -/
theorem byterange_contiguity_witness :
    (c7State.currentByterange = some ⟨534220, 652⟩
      ∧ (0 : Int) < 652 + 534220)
    ∧ ((runEntries c7State [c7Uri1, c7Tag, c7Uri2]).1).map Segment.byterange
        = [some ⟨534220, 652⟩, some ⟨535192, (652 : Int) + 534220⟩] :=
  ⟨⟨rfl, by norm_num⟩,
   byterange_contiguity.2.2.2 c7State c7Uri1 c7Tag c7Uri2 ⟨534220, 652⟩ ⟨535192, 0⟩
     rfl (by norm_num) rfl (by rfl) (by rfl) rfl rfl⟩

set_option maxHeartbeats 4000000 in
/-- **C8.** Attribute-parser completeness: in the order of the test and
in every reordering of the four comma-separated attributes, parsing
recovers exactly the four keys with their values (quoted values without
the quotes), and `GetInt("BANDWIDTH")` returns 1280000 without error. -/
theorem attr_parse_complete :
    ∀ p ∈ permsOf c8Attrs,
      attrGet (ParseAttributeList (joinComma p)) "URI".data = "init.mp4".data
      ∧ attrGet (ParseAttributeList (joinComma p)) "BYTERANGE".data = "652@0".data
      ∧ attrGet (ParseAttributeList (joinComma p)) "BANDWIDTH".data = "1280000".data
      ∧ attrGet (ParseAttributeList (joinComma p)) "RESOLUTION".data = "1920x1080".data
      ∧ attrGetInt (ParseAttributeList (joinComma p)) "BANDWIDTH".data = .ok 1280000 := by
  decide

/-- Witness for C8 at the test's own attribute order. -/
theorem attr_parse_complete_witness :
    c8Attrs ∈ permsOf c8Attrs
    ∧ (attrGet (ParseAttributeList (joinComma c8Attrs)) "URI".data = "init.mp4".data
      ∧ attrGet (ParseAttributeList (joinComma c8Attrs)) "BYTERANGE".data = "652@0".data
      ∧ attrGet (ParseAttributeList (joinComma c8Attrs)) "BANDWIDTH".data = "1280000".data
      ∧ attrGet (ParseAttributeList (joinComma c8Attrs)) "RESOLUTION".data
          = "1920x1080".data
      ∧ attrGetInt (ParseAttributeList (joinComma c8Attrs)) "BANDWIDTH".data
          = .ok 1280000) :=
  ⟨by decide, attr_parse_complete c8Attrs (by decide)⟩

/-! ## C4: the linked-audio merge of the master-playlist encoder -/

lemma getStreamingMetadata_eq (t : EncTrack) (m : List (List Char × GoValue))
    (h : getAssoc? t.meta "streaming".data = some (.map m)) :
    getStreamingMetadata t = m := by
  unfold getStreamingMetadata
  rw [h]

lemma getAssoc?_putCodec_ne (md : List (List Char × GoValue)) (a : AttributeList)
    (kq : List Char) (h : kq ≠ "CODECS".data) :
    getAssoc? (putCodec md a) kq = getAssoc? a kq := by
  unfold putCodec
  split
  · exact getAssoc?_putAssoc_ne _ _ _ _ h
  · rfl

lemma getAssoc?_putFrameRate_ne (md : List (List Char × GoValue)) (a : AttributeList)
    (kq : List Char) (h : kq ≠ "FRAME-RATE".data) :
    getAssoc? (putFrameRate md a) kq = getAssoc? a kq := by
  unfold putFrameRate
  split
  · exact getAssoc?_putAssoc_ne _ _ _ _ h
  · rfl

lemma getAssoc?_putResolution_ne (md : List (List Char × GoValue)) (a : AttributeList)
    (kq : List Char) (h : kq ≠ "RESOLUTION".data) :
    getAssoc? (putResolution md a) kq = getAssoc? a kq := by
  unfold putResolution
  split
  · exact getAssoc?_putAssoc_ne _ _ _ _ h
  · rfl

lemma getAssoc?_putBandwidth_self (md : List (List Char × GoValue)) (a : AttributeList)
    (v : GoValue) (h : getAssoc? md "bandwidth".data = some v) :
    getAssoc? (putBandwidth md a) "BANDWIDTH".data = some (sprintfV v) := by
  unfold putBandwidth
  rw [h]
  show getAssoc? (putAssoc a "BANDWIDTH".data (sprintfV v)) "BANDWIDTH".data
    = some (sprintfV v)
  exact getAssoc?_putAssoc_self _ _ _

lemma getAssoc?_putCodec_self (md : List (List Char × GoValue)) (a : AttributeList)
    (c : List Char) (h : getAssoc? md "codec".data = some (.str c)) :
    getAssoc? (putCodec md a) "CODECS".data = some c := by
  unfold putCodec
  rw [h]
  show getAssoc? (putAssoc a "CODECS".data c) "CODECS".data = some c
  exact getAssoc?_putAssoc_self _ _ _

lemma buildStreamInf_bandwidth (md : List (List Char × GoValue)) (v : GoValue)
    (h : getAssoc? md "bandwidth".data = some v) :
    getAssoc? (buildStreamInfAttributes md) "BANDWIDTH".data = some (sprintfV v) := by
  unfold buildStreamInfAttributes
  rw [getAssoc?_putResolution_ne _ _ _ (by decide),
    getAssoc?_putFrameRate_ne _ _ _ (by decide),
    getAssoc?_putCodec_ne _ _ _ (by decide)]
  exact getAssoc?_putBandwidth_self md [] v h

lemma buildStreamInf_codecs (md : List (List Char × GoValue)) (c : List Char)
    (h : getAssoc? md "codec".data = some (.str c)) :
    getAssoc? (buildStreamInfAttributes md) "CODECS".data = some c := by
  unfold buildStreamInfAttributes
  rw [getAssoc?_putResolution_ne _ _ _ (by decide),
    getAssoc?_putFrameRate_ne _ _ _ (by decide)]
  exact getAssoc?_putCodec_self md _ c h

/-- **C4.** Linked-track merge on master-playlist encode: whenever a
video track's metadata lists `linked_tracks` and the first audio track
whose name occurs there is `a` (`findLinkedAudio` is the encoder's
first-match scan), the emitted `EXT-X-STREAM-INF` attribute list carries
`AUDIO` set to `a`'s group id, the audio codec comma-appended to the
video codecs, and `BANDWIDTH` equal to the sum of the video and audio
bandwidths. -/
theorem master_linked_audio_merge
    (video : EncTrack) (audioTracks : List EncTrack) (a : EncTrack)
    (lts : List GoValue)
    (hlt : getAssoc? video.meta "linked_tracks".data = some (.list lts))
    (hfind : findLinkedAudio lts audioTracks = some a)
    (vmd amd : List (List Char × GoValue))
    (hv : getAssoc? video.meta "streaming".data = some (.map vmd))
    (ha : getAssoc? a.meta "streaming".data = some (.map amd))
    (vb : Int) (hvb : getAssoc? vmd "bandwidth".data = some (.int vb))
    (vc : List Char) (hvc : getAssoc? vmd "codec".data = some (.str vc))
    (g : List Char) (hg : getAssoc? amd "group_id".data = some (.str g))
    (ac : List Char) (hac : getAssoc? amd "codec".data = some (.str ac))
    (hacne : ac ≠ [])
    (ab : Int) (hab : getAssoc? amd "bandwidth".data = some (.int ab)) (habpos : 0 < ab)
    (hlo : -(2 ^ 63) ≤ vb) (hhi : vb ≤ 2 ^ 63 - 1) :
    attrGet (streamInfAttrsFor video audioTracks) "AUDIO".data = g
    ∧ attrGet (streamInfAttrsFor video audioTracks) "CODECS".data = vc ++ ',' :: ac
    ∧ attrGet (streamInfAttrsFor video audioTracks) "BANDWIDTH".data
        = intToChars (vb + ab) := by
  have hsv := getStreamingMetadata_eq video vmd hv
  have hsa := getStreamingMetadata_eq a amd ha
  have hbw : getAssoc? (buildStreamInfAttributes vmd) "BANDWIDTH".data
      = some (intToChars vb) := buildStreamInf_bandwidth vmd (.int vb) hvb
  have hcdx : getAssoc? (buildStreamInfAttributes vmd) "CODECS".data = some vc :=
    buildStreamInf_codecs vmd vc hvc
  have hg' : getStringOrDefault amd "group_id".data "audio1".data = g := by
    unfold getStringOrDefault; rw [hg]
  have hac' : getStringOrDefault amd "codec".data [] = ac := by
    unfold getStringOrDefault; rw [hac]
  have hab' : getIntOrDefault amd "bandwidth".data 0 = ab := by
    unfold getIntOrDefault; rw [hab]
  have hbw2 : attrGet (putAssoc (putAssoc (buildStreamInfAttributes vmd)
        "CODECS".data (vc ++ ',' :: ac)) "AUDIO".data g) "BANDWIDTH".data
      = intToChars vb := by
    rw [attrGet_putAssoc_ne _ _ _ _ (by decide), attrGet_putAssoc_ne _ _ _ _ (by decide)]
    unfold attrGet
    rw [hbw]
    rfl
  have hgi : attrGetInt (putAssoc (putAssoc (buildStreamInfAttributes vmd)
        "CODECS".data (vc ++ ',' :: ac)) "AUDIO".data g) "BANDWIDTH".data = .ok vb := by
    unfold attrGetInt
    rw [hbw2, if_neg (intToChars_ne_nil vb), parseInt64_intToChars vb hlo hhi]
  have hmerge : streamInfAttrsFor video audioTracks
      = putAssoc (putAssoc (putAssoc (buildStreamInfAttributes vmd)
          "CODECS".data (vc ++ ',' :: ac)) "AUDIO".data g)
          "BANDWIDTH".data (intToChars (vb + ab)) := by
    unfold streamInfAttrsFor
    rw [hlt]
    show (match findLinkedAudio lts audioTracks with
      | some a2 =>
        mergeLinkedAudio (buildStreamInfAttributes (getStreamingMetadata video)) a2
      | none => buildStreamInfAttributes (getStreamingMetadata video)) = _
    rw [hfind]
    show mergeLinkedAudio (buildStreamInfAttributes (getStreamingMetadata video)) a = _
    rw [hsv]
    unfold mergeLinkedAudio
    rw [hsa, hg', hac', hab']
    unfold mergeCodec
    rw [if_pos hacne, hcdx]
    show mergeBandwidth (putAssoc (putAssoc (buildStreamInfAttributes vmd)
        "CODECS".data (vc ++ ',' :: ac)) "AUDIO".data g) ab = _
    unfold mergeBandwidth
    rw [if_pos habpos, hgi]
  rw [hmerge]
  refine ⟨?_, ?_, ?_⟩
  · rw [attrGet_putAssoc_ne _ _ _ _ (by decide), attrGet_putAssoc_self]
  · rw [attrGet_putAssoc_ne _ _ _ _ (by decide),
      attrGet_putAssoc_ne _ _ _ _ (by decide), attrGet_putAssoc_self]
  · rw [attrGet_putAssoc_self]

/-- Witness for C4: bandwidth 123456 + 12345 renders as `135801`, the
codec list and group id come from the first matching audio track, and
the second candidate is ignored. -/
theorem master_linked_audio_merge_witness :
    (findLinkedAudio [.str "a1".data, .str "a2".data] [c4Audio1, c4Audio2]
        = some c4Audio1)
    ∧ attrGet (streamInfAttrsFor c4Video [c4Audio1, c4Audio2]) "AUDIO".data
        = "audio1".data
    ∧ attrGet (streamInfAttrsFor c4Video [c4Audio1, c4Audio2]) "CODECS".data
        = "avc1.4d401f".data ++ ',' :: "mp4a.40.2".data
    ∧ attrGet (streamInfAttrsFor c4Video [c4Audio1, c4Audio2]) "BANDWIDTH".data
        = intToChars ((123456 : Int) + 12345) :=
  ⟨rfl,
   master_linked_audio_merge c4Video [c4Audio1, c4Audio2] c4Audio1
     [.str "a1".data, .str "a2".data] rfl rfl _ _ rfl rfl
     123456 rfl "avc1.4d401f".data rfl "audio1".data rfl
     "mp4a.40.2".data rfl (by decide) 12345 rfl (by norm_num)
     (by norm_num) (by norm_num)⟩

end HLS
